import Mathlib

/-!
Verification of the avatar compositing pipeline in
src/avatar_compositor.py against its design document.

The Python code is shallowly embedded: Python floats are modelled by
exact rationals (ℚ), Python ints by ℤ/ℕ, PIL rasters by explicit
width/height plus a pixel function, and fallible parsing by Option.
Each definition is a direct transcription of the corresponding Python
function; the doc comment names the source lines it embeds.
-/

namespace AvatarProofs

/-! ### Python numeric primitives -/

/-- Truncation toward zero, the semantics of Python builtin int() applied
to a numeric value (floor for nonnegative, ceiling for negative). -/
def pyInt (q : ℚ) : ℤ := if 0 ≤ q then ⌊q⌋ else ⌈q⌉

theorem pyInt_of_nonneg {q : ℚ} (h : 0 ≤ q) : pyInt q = ⌊q⌋ := by
  simp [pyInt, h]

theorem pyInt_intCast (n : ℤ) : pyInt (n : ℚ) = n := by
  rcases le_or_lt 0 (n : ℚ) with h | h
  · simp [pyInt, h]
  · simp [pyInt, not_le.mpr h]

/-! ### hex_to_rgb (src/avatar_compositor.py lines 103-106) -/

/-- Character is one of 0-9, a-f, A-F (stated on code points: 48-57,
97-102, 65-70), the digits accepted by Python int(s, 16). -/
def isHexDigitCh (c : Char) : Bool :=
  ((48 ≤ c.toNat && c.toNat ≤ 57) || (97 ≤ c.toNat && c.toNat ≤ 102)
    || (65 ≤ c.toNat && c.toNat ≤ 70))

/-- Numeric value of a hex digit character. -/
def hexVal (c : Char) : ℕ :=
  if 48 ≤ c.toNat && c.toNat ≤ 57 then c.toNat - 48
  else if 97 ≤ c.toNat then c.toNat - 97 + 10
  else c.toNat - 65 + 10

/-- ASCII whitespace as skipped by Python around an int() literal:
codes 32, 9-13, 28-31 and 133. (Python also skips further Unicode space
codepoints beyond the Latin-1 range; none occur in the strings this
program handles.) -/
def isSpaceCh (c : Char) : Bool :=
  (c.toNat == 32 || (9 ≤ c.toNat && c.toNat ≤ 13)
    || (28 ≤ c.toNat && c.toNat ≤ 31) || c.toNat == 133)

/-- Value of a plain string of hex digits: its base-16 value when the
string is nonempty and made of hex digits only, none otherwise. This is
the sign-, space-, prefix- and underscore-free core of Python
int(_, 16); the full parser below reduces to it on such inputs. -/
def hexDigitsVal (l : List Char) : Option ℕ :=
  if l = [] then none
  else if l.all isHexDigitCh then
    some (l.foldl (fun acc c => acc * 16 + hexVal c) 0)
  else none

/-- Continuation of a base-16 digit part, one character at a time: hex
digits, with a single underscore (code 95) allowed between two digits as
Python permits; afterUnderscore records that the previous character was
that underscore, which must be followed by a digit. -/
def hexTail (acc : ℕ) (afterUnderscore : Bool) : List Char → Option ℕ
  | [] => if afterUnderscore then none else some acc
  | c :: rest =>
    if isHexDigitCh c then hexTail (acc * 16 + hexVal c) false rest
    else if c.toNat = 95 && !afterUnderscore then hexTail acc true rest
    else none

/-- Digit part of a base-16 literal: nonempty, beginning with a hex
digit, single underscores allowed between digits. -/
def parseHexDigits : List Char → Option ℕ
  | [] => none
  | c :: rest => if isHexDigitCh c then hexTail (hexVal c) false rest else none

/-- Body of a base-16 literal after the optional sign: an optional
0x/0X prefix (codes 48 then 120/88), which may be followed by one
underscore, then the digit part. -/
def parseHexBody : List Char → Option ℕ
  | c0 :: c1 :: rest =>
    if c0.toNat = 48 ∧ (c1.toNat = 120 ∨ c1.toNat = 88) then
      match rest with
      | [] => none
      | c2 :: rest2 =>
        if c2.toNat = 95 then parseHexDigits rest2
        else parseHexDigits (c2 :: rest2)
    else parseHexDigits (c0 :: c1 :: rest)
  | l => parseHexDigits l

/-- Python builtin int(s, 16): strip whitespace at both ends, accept one
optional sign ('+' code 43, '-' code 45, the latter negating the
result), then the body. Matches Python on its Latin-1 inputs, e.g.
int('+1', 16) = 1, int(' 1 ', 16) = 1, int('-f', 16) = -15 and
int('0x_ff', 16) = 255, while int('', 16), int('+', 16), int('0x', 16),
int('_1', 16) and int('1_', 16) all raise. -/
def pyIntBase16 (l : List Char) : Option ℤ :=
  match ((l.dropWhile isSpaceCh).reverse.dropWhile isSpaceCh).reverse with
  | [] => none
  | c :: rest =>
    if c.toNat = 43 then (parseHexBody rest).map (fun v : ℕ => (v : ℤ))
    else if c.toNat = 45 then (parseHexBody rest).map (fun v : ℕ => -(v : ℤ))
    else (parseHexBody (c :: rest)).map (fun v : ℕ => (v : ℤ))

/-- Python slice s[i:j] on a list of characters (clamping, as in Python). -/
def pySlice (l : List Char) (i j : ℕ) : List Char :=
  (l.take j).drop i

/-- Parsing step of hex_to_rgb after the strip, line 106: the three
two-character slices [0:2], [2:4], [4:6] each go through int(_, 16);
any parse failure raises, modelled as none. Channels are integers: a
'-' sign inside a slice makes int() return a negative value. -/
def hex_core (t : List Char) : Option (ℤ × ℤ × ℤ) :=
  match pyIntBase16 (pySlice t 0 2), pyIntBase16 (pySlice t 2 4),
      pyIntBase16 (pySlice t 4 6) with
  | some r, some g, some b => some (r, g, b)
  | _, _, _ => none

/-- Embeds hex_to_rgb (lines 103-106): strip every leading '#'
(str.lstrip removes all leading occurrences), then parse the three
slices. -/
def hex_to_rgb (s : List Char) : Option (ℤ × ℤ × ℤ) :=
  hex_core (s.dropWhile (fun c => c == '#'))

/-- Spec-side predicate, written from the claim's words, for comparison
with the implementation: the input, after stripping ONE optional leading
'#', is exactly 6 hex digits. -/
def specSixHexAfterOptionalHash (s : List Char) : Bool :=
  let t := if s.head? = some '#' then s.tail else s
  t.length = 6 && t.all isHexDigitCh

/-! ### create_gradient_image (src/avatar_compositor.py lines 109-126) -/

/-- Interpolation factor of pixel (x, y) in a width×height gradient
raster, line 120: t = ((width - x) + y) / (width + height). -/
def gradient_t (width height x y : ℕ) : ℚ :=
  (((width : ℚ) - (x : ℚ)) + (y : ℚ)) / ((width : ℚ) + (height : ℚ))

/-- One colour channel of gradient pixel (x, y), lines 121-123:
int(start * (1 - t) + end * t) with Python int() truncation. -/
def gradient_channel (width height x y s e : ℕ) : ℤ :=
  pyInt ((s : ℚ) * (1 - gradient_t width height x y)
    + (e : ℚ) * gradient_t width height x y)

/-! ### AvatarConfig (src/avatar_compositor.py lines 54-100) -/

/-- Embeds the AvatarConfig dataclass. Python numbers (int or float) are
modelled uniformly as exact rationals; a value is "integer-valued" when
its denominator is 1, matching Python's test isinstance(v, float) and
v != int(v) being false. Field internal_scale embeds _internal_scale. -/
structure AvatarConfig where
  output_size : ℚ × ℚ := (340, 400)
  portal_size : ℚ × ℚ := (340, 340)
  mask_size : ℚ × ℚ := (340, 430)
  portal_offset : ℚ × ℚ := (0, 60)
  mask_offset : ℚ × ℚ := (0, -148/5)
  character_offset : ℚ × ℚ := (-70, -40)
  character_size : ℚ × ℚ := (449, 804)
  character_rotation : ℚ := 3
  face_position : ℚ := 0
  output_scale : ℚ := 1
  internal_scale : ℚ := 1
deriving Repr, DecidableEq

/-- Embeds the has_subpixel test inside AvatarConfig.scaled (lines 75-80):
true when any of the six OFFSET components (mask, portal, character) is a
non-integer value; the size fields are not inspected. -/
def AvatarConfig.has_subpixel (c : AvatarConfig) : Bool :=
  (c.mask_offset.1.den != 1 || c.mask_offset.2.den != 1
    || c.portal_offset.1.den != 1 || c.portal_offset.2.den != 1
    || c.character_offset.1.den != 1 || c.character_offset.2.den != 1)

/-- Embeds AvatarConfig.scaled (lines 69-98): pick internal scale 2 when
has_subpixel else 1, multiply every size and offset by
s = output_scale * internal_scale, integerize each with int(), and return
a NEW config recording the internal scale. -/
def AvatarConfig.scaled (c : AvatarConfig) : AvatarConfig :=
  let internal : ℚ := if c.has_subpixel then 2 else 1
  let s : ℚ := c.output_scale * internal
  { output_size := ((pyInt (c.output_size.1 * s) : ℚ), (pyInt (c.output_size.2 * s) : ℚ))
    portal_size := ((pyInt (c.portal_size.1 * s) : ℚ), (pyInt (c.portal_size.2 * s) : ℚ))
    mask_size := ((pyInt (c.mask_size.1 * s) : ℚ), (pyInt (c.mask_size.2 * s) : ℚ))
    portal_offset := ((pyInt (c.portal_offset.1 * s) : ℚ), (pyInt (c.portal_offset.2 * s) : ℚ))
    mask_offset := ((pyInt (c.mask_offset.1 * s) : ℚ), (pyInt (c.mask_offset.2 * s) : ℚ))
    character_offset := ((pyInt (c.character_offset.1 * s) : ℚ), (pyInt (c.character_offset.2 * s) : ℚ))
    character_size := ((pyInt (c.character_size.1 * s) : ℚ), (pyInt (c.character_size.2 * s) : ℚ))
    character_rotation := c.character_rotation
    face_position := c.face_position
    output_scale := 1
    internal_scale := internal }

/-- State-passing form of the method call config.scaled(): the first
component is the returned value, the second is the value of the receiver
after the call. The method body (lines 69-98) only reads self and builds
a fresh AvatarConfig, so the receiver comes back unchanged. -/
def AvatarConfig.scaledS (c : AvatarConfig) : AvatarConfig × AvatarConfig :=
  (c.scaled, c)

/-- Size of the final canvas returned by composite_avatar: the canvas is
allocated at the scaled config's output_size (line 258) and, when the
internal scale exceeds 1, resized at the end to
(int(width / internal_scale), int(height / internal_scale))
(lines 339-345). -/
def final_canvas_size (c : AvatarConfig) : ℤ × ℤ :=
  let e := c.scaled
  if 1 < e.internal_scale then
    (pyInt (e.output_size.1 / e.internal_scale),
     pyInt (e.output_size.2 / e.internal_scale))
  else
    (pyInt e.output_size.1, pyInt e.output_size.2)

/-- Configuration whose character_size width is fractional (449.5)
while every offset is integral; used to probe the supersample
decision. -/
def fracSizeConfig : AvatarConfig :=
  { output_size := (340, 400)
    portal_size := (340, 340)
    mask_size := (340, 430)
    portal_offset := (0, 60)
    mask_offset := (0, -30)
    character_offset := (-70, -40)
    character_size := (899/2, 804)
    character_rotation := 3
    face_position := 0
    output_scale := 1
    internal_scale := 1 }

/-- The default configuration, AvatarConfig() with no overrides. -/
def defaultConfig : AvatarConfig := {}

/-! ### Cover transform (src/avatar_compositor.py lines 269-291) -/

/-- Cover scale, line 273: max(target_width / img_width,
target_height / img_height). -/
def cover_scale (srcW srcH tw th : ℕ) : ℚ :=
  max ((tw : ℚ) / (srcW : ℚ)) ((th : ℚ) / (srcH : ℚ))

/-- Resized size, lines 274-275: (int(img_width * scale),
int(img_height * scale)). -/
def cover_new_size (srcW srcH tw th : ℕ) : ℤ × ℤ :=
  (pyInt ((srcW : ℚ) * cover_scale srcW srcH tw th),
   pyInt ((srcH : ℚ) * cover_scale srcW srcH tw th))

/-- Crop box, lines 279-283: left = (new_width - target_width) // 2
(Python floor division), max_top = new_height - target_height,
top = int(max_top * face_position), box
(left, top, left + target_width, top + target_height). -/
def cover_crop_box (srcW srcH tw th : ℕ) (fp : ℚ) : ℤ × ℤ × ℤ × ℤ :=
  let nw := (cover_new_size srcW srcH tw th).1
  let nh := (cover_new_size srcW srcH tw th).2
  let left := (nw - (tw : ℤ)) / 2
  let top := pyInt (((nh - (th : ℤ)) : ℚ) * fp)
  (left, top, left + (tw : ℤ), top + (th : ℤ))

/-- Size of a PIL crop of box (l, t, r, b): exactly (r - l, b - t)
pixels, padding with transparent pixels where the box leaves the source
image. -/
def crop_size (l t r b : ℤ) : ℕ × ℕ := ((r - l).toNat, (b - t).toNat)

/-- Size of PIL Image.rotate(angle, expand=True) on a w×h raster, where
c and s are the cosine and sine of the rotation angle: the axis-aligned
bounding box of the rotated rectangle, rounded up. For right-angle
rotations (c, s ∈ {0, ±1}) PIL takes an exact transpose fast path and
this formula reproduces it exactly: 90 and 270 degrees give (h, w), 180
gives (w, h). -/
def rotate_expand_size (w h : ℕ) (c s : ℚ) : ℕ × ℕ :=
  ((⌈(w : ℚ) * |c| + (h : ℚ) * |s|⌉).toNat,
   (⌈(w : ℚ) * |s| + (h : ℚ) * |c|⌉).toNat)

/-- Size of the subject raster handed to the layer compositor
(lines 283-291): the crop yields exactly (tw, th); when
character_rotation is nonzero the raster is rotated with expand=True,
otherwise it is left as is. The rotation angle is carried by its cosine
c and sine s. -/
def prepared_subject_size (srcW srcH tw th : ℕ) (fp : ℚ)
    (rotation c s : ℚ) : ℕ × ℕ :=
  let box := cover_crop_box srcW srcH tw th fp
  let cropped := crop_size box.1 box.2.1 box.2.2.1 box.2.2.2
  if rotation ≠ 0 then rotate_expand_size cropped.1 cropped.2 c s
  else cropped

/-! ### PIL raster model -/

/-- Single-channel ("L") raster: a size and a pixel map. Pixel values
are 0-255 coverage; the map is total, with only coordinates inside
[0, width) × [0, height) meaningful. -/
structure ImageL where
  width : ℕ
  height : ℕ
  px : ℤ → ℤ → ℕ

/-- RGBA raster (straight alpha), same conventions as ImageL. -/
structure ImageRGBA where
  width : ℕ
  height : ℕ
  px : ℤ → ℤ → ℕ × ℕ × ℕ × ℕ

/-- PIL Image.new("L", size, v). -/
def newL (size : ℕ × ℕ) (v : ℕ) : ImageL :=
  ⟨size.1, size.2, fun _ _ => v⟩

/-- PIL Image.new("RGBA", size, v). -/
def newRGBA (size : ℕ × ℕ) (v : ℕ × ℕ × ℕ × ℕ) : ImageRGBA :=
  ⟨size.1, size.2, fun _ _ => v⟩

/-- PIL base.paste(img, (ox, oy)) for single-channel images: overwrite
the rectangle of img inside base, keep base elsewhere; the base size is
unchanged. -/
def pasteL (base img : ImageL) (ox oy : ℤ) : ImageL :=
  ⟨base.width, base.height, fun x y =>
    if ox ≤ x ∧ x < ox + (img.width : ℤ) ∧ oy ≤ y ∧ y < oy + (img.height : ℤ)
    then img.px (x - ox) (y - oy) else base.px x y⟩

/-- PIL base.paste(img, (ox, oy)) for RGBA images (no mask argument):
plain rectangle overwrite, alpha included. -/
def pasteRGBA (base img : ImageRGBA) (ox oy : ℤ) : ImageRGBA :=
  ⟨base.width, base.height, fun x y =>
    if ox ≤ x ∧ x < ox + (img.width : ℤ) ∧ oy ≤ y ∧ y < oy + (img.height : ℤ)
    then img.px (x - ox) (y - oy) else base.px x y⟩

/-- PIL img.getchannel("A"). -/
def getchannelA (img : ImageRGBA) : ImageL :=
  ⟨img.width, img.height, fun x y => (img.px x y).2.2.2⟩

/-- PIL img.putalpha(a): replace the alpha channel. -/
def putalpha (img : ImageRGBA) (a : ImageL) : ImageRGBA :=
  ⟨img.width, img.height, fun x y =>
    ((img.px x y).1, (img.px x y).2.1, (img.px x y).2.2.1, a.px x y)⟩

/-- PIL ImageChops.multiply(a, b): per-pixel a * b / 255 (the documented
"superimpose" product; multiplying by solid white 255 is the identity,
by solid black 0 gives black). Called on same-sized images. -/
def multiplyL (a b : ImageL) : ImageL :=
  ⟨a.width, a.height, fun x y => a.px x y * b.px x y / 255⟩

/-- PIL img.crop((l, t, r, b)): always (r-l) × (b-t) pixels, reading the
source where the box overlaps it and transparent black elsewhere. -/
def cropRGBA (img : ImageRGBA) (l t r b : ℤ) : ImageRGBA :=
  ⟨(r - l).toNat, (b - t).toNat, fun x y =>
    if 0 ≤ l + x ∧ l + x < (img.width : ℤ) ∧ 0 ≤ t + y ∧ t + y < (img.height : ℤ)
    then img.px (l + x) (t + y) else (0, 0, 0, 0)⟩

/-! ### Layer compositor (src/avatar_compositor.py lines 296-334)

These definitions run on the scaled config, whose offsets are integers,
so the offsets are taken as ℤ and the output size as ℕ. -/

/-- Line 297: expand_left = abs(min(0, mask_offset[0],
character_offset[0])). -/
def expand_left (maskOffX charOffX : ℤ) : ℕ :=
  (min 0 (min maskOffX charOffX)).natAbs

/-- Line 298: expand_top = abs(min(0, mask_offset[1],
character_offset[1])). -/
def expand_top (maskOffY charOffY : ℤ) : ℕ :=
  (min 0 (min maskOffY charOffY)).natAbs

/-- Lines 299-302: expanded_size = (output[0] + expand_left * 2 + 200,
output[1] + expand_top * 2 + 200). -/
def expanded_size (outW outH : ℕ) (maskOff charOff : ℤ × ℤ) : ℕ × ℕ :=
  (outW + expand_left maskOff.1 charOff.1 * 2 + 200,
   outH + expand_top maskOff.2 charOff.2 * 2 + 200)

/-- Lines 308-314: the mask pasted at (expand_left + mask_offset[0],
expand_top + mask_offset[1]) onto a zero-initialized full-size
alpha canvas. -/
def mask_placed (outW outH : ℕ) (maskOff charOff : ℤ × ℤ)
    (mask : ImageL) : ImageL :=
  pasteL (newL (expanded_size outW outH maskOff charOff) 0) mask
    ((expand_left maskOff.1 charOff.1 : ℤ) + maskOff.1)
    ((expand_top maskOff.2 charOff.2 : ℤ) + maskOff.2)

/-- Lines 304-318: the subject pasted at (expand_left +
character_offset[0], expand_top + character_offset[1]) onto a
transparent RGBA canvas of the expanded size. -/
def subject_placed (outW outH : ℕ) (maskOff charOff : ℤ × ℤ)
    (character : ImageRGBA) : ImageRGBA :=
  pasteRGBA (newRGBA (expanded_size outW outH maskOff charOff) (0, 0, 0, 0))
    character
    ((expand_left maskOff.1 charOff.1 : ℤ) + charOff.1)
    ((expand_top maskOff.2 charOff.2 : ℤ) + charOff.2)

/-- Lines 296-334, the whole subject-layer stage: place mask and subject
on the expanded canvas, multiply the subject's own alpha by the placed
mask, install the combined alpha, and crop back to the output frame
(expand_left, expand_top, expand_left + outW, expand_top + outH). -/
def composite_subject_layer (outW outH : ℕ) (maskOff charOff : ℤ × ℤ)
    (character : ImageRGBA) (mask : ImageL) : ImageRGBA :=
  let el := expand_left maskOff.1 charOff.1
  let et := expand_top maskOff.2 charOff.2
  let full_mask := mask_placed outW outH maskOff charOff mask
  let temp := subject_placed outW outH maskOff charOff character
  let final_alpha := multiplyL (getchannelA temp) full_mask
  let char_expanded := putalpha temp final_alpha
  cropRGBA char_expanded (el : ℤ) (et : ℤ) ((el : ℤ) + (outW : ℤ))
    ((et : ℤ) + (outH : ℤ))

/-! ## Claim theorems -/

/-- C1: for every configuration, the composited subject layer produced
by the layer-compositor stage (expanded-canvas placement, alpha
combination, crop-back) is an RGBA raster of exactly (outputW, outputH)
pixels, for all signs and magnitudes of the mask and subject offsets:
the output frame size is a function of the output size alone. -/
theorem C1_subject_layer_size (outW outH : ℕ) (maskOff charOff : ℤ × ℤ)
    (character : ImageRGBA) (mask : ImageL) :
    (composite_subject_layer outW outH maskOff charOff character mask).width = outW ∧
    (composite_subject_layer outW outH maskOff charOff character mask).height = outH := by
  constructor <;>
    simp [composite_subject_layer, cropRGBA]

/-- C6: the working canvas of the layer compositor is sized
(outputW + 2·expandLeft + 200, outputH + 2·expandTop + 200) with
expandLeft = abs(min(0, maskOffsetX, subjectOffsetX)) and
expandTop = abs(min(0, maskOffsetY, subjectOffsetY)); both the placed
mask canvas and the placed subject canvas are allocated at exactly that
size. -/
theorem C6_expanded_canvas (outW outH : ℕ) (maskOff charOff : ℤ × ℤ)
    (character : ImageRGBA) (mask : ImageL) :
    ((expanded_size outW outH maskOff charOff).1 : ℤ)
      = (outW : ℤ) + 2 * |min 0 (min maskOff.1 charOff.1)| + 200 ∧
    ((expanded_size outW outH maskOff charOff).2 : ℤ)
      = (outH : ℤ) + 2 * |min 0 (min maskOff.2 charOff.2)| + 200 ∧
    (mask_placed outW outH maskOff charOff mask).width
      = (expanded_size outW outH maskOff charOff).1 ∧
    (mask_placed outW outH maskOff charOff mask).height
      = (expanded_size outW outH maskOff charOff).2 ∧
    (subject_placed outW outH maskOff charOff character).width
      = (expanded_size outW outH maskOff charOff).1 ∧
    (subject_placed outW outH maskOff charOff character).height
      = (expanded_size outW outH maskOff charOff).2 := by
  refine ⟨?_, ?_, rfl, rfl, rfl, rfl⟩ <;>
  · simp only [expanded_size, expand_left, expand_top, Int.abs_eq_natAbs]
    push_cast
    ring

/-- C9: deriving the effective configuration is a pure function: the
method call returns a new value and the receiver comes back with every
field unchanged. -/
theorem C9_scaled_pure (c : AvatarConfig) :
    (AvatarConfig.scaledS c).1 = c.scaled ∧
    (AvatarConfig.scaledS c).2 = c ∧
    (AvatarConfig.scaledS c).2.output_size = c.output_size ∧
    (AvatarConfig.scaledS c).2.portal_size = c.portal_size ∧
    (AvatarConfig.scaledS c).2.mask_size = c.mask_size ∧
    (AvatarConfig.scaledS c).2.portal_offset = c.portal_offset ∧
    (AvatarConfig.scaledS c).2.mask_offset = c.mask_offset ∧
    (AvatarConfig.scaledS c).2.character_offset = c.character_offset ∧
    (AvatarConfig.scaledS c).2.character_size = c.character_size ∧
    (AvatarConfig.scaledS c).2.character_rotation = c.character_rotation ∧
    (AvatarConfig.scaledS c).2.face_position = c.face_position ∧
    (AvatarConfig.scaledS c).2.output_scale = c.output_scale ∧
    (AvatarConfig.scaledS c).2.internal_scale = c.internal_scale :=
  ⟨rfl, rfl, rfl, rfl, rfl, rfl, rfl, rfl, rfl, rfl, rfl, rfl, rfl⟩

/-- C5: the combined alpha at each pixel is
subjectAlpha · maskAlpha / 255; the combination is commutative in its
two arguments and yields 0 whenever either input alpha is 0, and the
composited layer's alpha at every in-frame pixel is exactly the product
of the placed subject's own alpha and the placed mask. -/
theorem C5_alpha_combination (a b : ImageL) (outW outH : ℕ)
    (maskOff charOff : ℤ × ℤ) (character : ImageRGBA) (mask : ImageL)
    (x y : ℤ) (hx0 : 0 ≤ x) (hx : x < (outW : ℤ))
    (hy0 : 0 ≤ y) (hy : y < (outH : ℤ)) :
    (multiplyL a b).px x y = a.px x y * b.px x y / 255 ∧
    (multiplyL a b).px x y = (multiplyL b a).px x y ∧
    (a.px x y = 0 ∨ b.px x y = 0 → (multiplyL a b).px x y = 0) ∧
    ((composite_subject_layer outW outH maskOff charOff character mask).px x y).2.2.2
      = (getchannelA (subject_placed outW outH maskOff charOff character)).px
          ((expand_left maskOff.1 charOff.1 : ℤ) + x)
          ((expand_top maskOff.2 charOff.2 : ℤ) + y)
        * (mask_placed outW outH maskOff charOff mask).px
          ((expand_left maskOff.1 charOff.1 : ℤ) + x)
          ((expand_top maskOff.2 charOff.2 : ℤ) + y) / 255 := by
  refine ⟨rfl, by simp [multiplyL, Nat.mul_comm], ?_, ?_⟩
  · rintro (h | h) <;> simp [multiplyL, h]
  · have hw : (putalpha (subject_placed outW outH maskOff charOff character)
        (multiplyL (getchannelA (subject_placed outW outH maskOff charOff character))
          (mask_placed outW outH maskOff charOff mask))).width
        = outW + expand_left maskOff.1 charOff.1 * 2 + 200 := rfl
    have hh : (putalpha (subject_placed outW outH maskOff charOff character)
        (multiplyL (getchannelA (subject_placed outW outH maskOff charOff character))
          (mask_placed outW outH maskOff charOff mask))).height
        = outH + expand_top maskOff.2 charOff.2 * 2 + 200 := rfl
    simp only [composite_subject_layer, cropRGBA]
    split_ifs with h
    · rfl
    · exfalso
      apply h
      rw [hw, hh]
      push_cast
      omega

/-! ## Gradient claims -/

theorem gradient_t_pos {width height x y : ℕ} (hx : x < width)
    (hy : y < height) : 0 < gradient_t width height x y := by
  unfold gradient_t
  have hx' : (x : ℚ) < (width : ℚ) := by exact_mod_cast hx
  have hy' : (0 : ℚ) ≤ (y : ℚ) := by positivity
  have hden : (0 : ℚ) < (width : ℚ) + (height : ℚ) := by
    have h1 : (0 : ℚ) < (width : ℚ) := lt_of_le_of_lt (by positivity) hx'
    have h2 : (0 : ℚ) ≤ (height : ℚ) := by positivity
    linarith
  exact div_pos (by linarith) hden

theorem gradient_t_lt_one {width height x y : ℕ} (hx : x < width)
    (hy : y < height) : gradient_t width height x y < 1 := by
  unfold gradient_t
  have hy' : (y : ℚ) < (height : ℚ) := by exact_mod_cast hy
  have hx' : (x : ℚ) < (width : ℚ) := by exact_mod_cast hx
  have hx0 : (0 : ℚ) ≤ (x : ℚ) := by positivity
  have hden : (0 : ℚ) < (width : ℚ) + (height : ℚ) := by linarith
  rw [div_lt_one hden]
  linarith

/-- C2 counterexample: for the 10×10 gradient from #000000 to #FFFFFF
the claim asserts channel value 242 at pixel (9,0) and 12 at (0,9); the
code computes t = 1/20 at (9,0), giving floor(255/20) = 12 there, and
242 at (0,9) — the two claimed values are swapped. -/
theorem C2_counterexample :
    gradient_channel 10 10 9 0 0 255 = 12 ∧
    gradient_channel 10 10 9 0 0 255 ≠ 242 ∧
    gradient_channel 10 10 0 9 0 255 = 242 ∧
    gradient_channel 10 10 0 9 0 255 ≠ 12 := by
  norm_num [gradient_channel, gradient_t, pyInt]

/-- C2 (amended): for every pixel (x,y) of a W×H gradient the factor is
t = ((W−x)+y)/(W+H) and each channel is floor(start·(1−t) + end·t)
(truncating); for the 10×10 gradient from #000000 to #FFFFFF, pixel
(9,0) has channel value 12 and pixel (0,9) has channel value 242. -/
theorem C2_gradient_formula (width height x y s e : ℕ)
    (hx : x < width) (hy : y < height) :
    gradient_t width height x y
      = (((width : ℚ) - (x : ℚ)) + (y : ℚ)) / ((width : ℚ) + (height : ℚ)) ∧
    gradient_channel width height x y s e
      = ⌊(s : ℚ) * (1 - gradient_t width height x y)
          + (e : ℚ) * gradient_t width height x y⌋ ∧
    gradient_channel 10 10 9 0 0 255 = 12 ∧
    gradient_channel 10 10 0 9 0 255 = 242 := by
  refine ⟨rfl, ?_, ?_, ?_⟩
  · have ht0 := le_of_lt (gradient_t_pos hx hy)
    have ht1 := le_of_lt (gradient_t_lt_one hx hy)
    have hs0 : (0 : ℚ) ≤ (s : ℚ) := by positivity
    have he0 : (0 : ℚ) ≤ (e : ℚ) := by positivity
    exact pyInt_of_nonneg (by nlinarith)
  · norm_num [gradient_channel, gradient_t, pyInt]
  · norm_num [gradient_channel, gradient_t, pyInt]

theorem C2_gradient_formula_witness :
    gradient_channel 10 10 9 0 0 255 = 12 ∧
    gradient_channel 10 10 0 9 0 255 = 242 :=
  ⟨(C2_gradient_formula 10 10 9 0 0 255 (by norm_num) (by norm_num)).2.2.1,
   (C2_gradient_formula 10 10 9 0 0 255 (by norm_num) (by norm_num)).2.2.2⟩

/-- C10: every pixel of a gradient with valid colours has interpolation
factor strictly between 0 and 1, and every channel value lies between
the two endpoint channels, hence in [0, 255]. -/
theorem C10_gradient_bounds (width height x y s e : ℕ)
    (hx : x < width) (hy : y < height) (hs : s ≤ 255) (he : e ≤ 255) :
    0 < gradient_t width height x y ∧
    gradient_t width height x y < 1 ∧
    ((min s e : ℕ) : ℤ) ≤ gradient_channel width height x y s e ∧
    gradient_channel width height x y s e ≤ ((max s e : ℕ) : ℤ) ∧
    0 ≤ gradient_channel width height x y s e ∧
    gradient_channel width height x y s e ≤ 255 := by
  have ht0 := gradient_t_pos hx hy
  have ht1 := gradient_t_lt_one hx hy
  set t := gradient_t width height x y with hts
  have hb1 : (0 : ℚ) ≤ 1 - t := by linarith
  have hb2 : (0 : ℚ) ≤ t := le_of_lt ht0
  have hminS : ((min s e : ℕ) : ℚ) ≤ (s : ℚ) := by exact_mod_cast min_le_left s e
  have hminE : ((min s e : ℕ) : ℚ) ≤ (e : ℚ) := by exact_mod_cast min_le_right s e
  have hmaxS : (s : ℚ) ≤ ((max s e : ℕ) : ℚ) := by exact_mod_cast le_max_left s e
  have hmaxE : (e : ℚ) ≤ ((max s e : ℕ) : ℚ) := by exact_mod_cast le_max_right s e
  have hlo : ((min s e : ℕ) : ℚ) ≤ (s : ℚ) * (1 - t) + (e : ℚ) * t := by
    nlinarith [mul_nonneg (sub_nonneg.2 hminS) hb1, mul_nonneg (sub_nonneg.2 hminE) hb2]
  have hhi : (s : ℚ) * (1 - t) + (e : ℚ) * t ≤ ((max s e : ℕ) : ℚ) := by
    nlinarith [mul_nonneg (sub_nonneg.2 hmaxS) hb1, mul_nonneg (sub_nonneg.2 hmaxE) hb2]
  have hval0 : (0 : ℚ) ≤ (s : ℚ) * (1 - t) + (e : ℚ) * t :=
    le_trans (by positivity) hlo
  have hch : gradient_channel width height x y s e
      = ⌊(s : ℚ) * (1 - t) + (e : ℚ) * t⌋ := pyInt_of_nonneg hval0
  have hfloor_lo : ((min s e : ℕ) : ℤ) ≤ ⌊(s : ℚ) * (1 - t) + (e : ℚ) * t⌋ := by
    rw [Int.le_floor]
    exact_mod_cast hlo
  have hfloor_hi : ⌊(s : ℚ) * (1 - t) + (e : ℚ) * t⌋ ≤ ((max s e : ℕ) : ℤ) := by
    have h := Int.floor_mono hhi
    rwa [Int.floor_natCast] at h
  refine ⟨ht0, ht1, by rw [hch]; exact hfloor_lo, by rw [hch]; exact hfloor_hi, ?_, ?_⟩
  · rw [hch]
    exact le_trans (by positivity) hfloor_lo
  · rw [hch]
    refine le_trans hfloor_hi ?_
    have : max s e ≤ 255 := by omega
    exact_mod_cast this

theorem C10_gradient_bounds_witness :
    0 < gradient_t 10 10 3 4 ∧
    gradient_t 10 10 3 4 < 1 ∧
    ((min 20 200 : ℕ) : ℤ) ≤ gradient_channel 10 10 3 4 20 200 ∧
    gradient_channel 10 10 3 4 20 200 ≤ ((max 20 200 : ℕ) : ℤ) ∧
    0 ≤ gradient_channel 10 10 3 4 20 200 ∧
    gradient_channel 10 10 3 4 20 200 ≤ 255 :=
  C10_gradient_bounds 10 10 3 4 20 200 (by norm_num) (by norm_num)
    (by norm_num) (by norm_num)

/-! ## Cover-transform claims -/

theorem cover_scale_mul_h_ge (srcW srcH tw th : ℕ) (hH : 0 < srcH) :
    (th : ℚ) ≤ (srcH : ℚ) * cover_scale srcW srcH tw th := by
  have h1 : (th : ℚ) / (srcH : ℚ) ≤ cover_scale srcW srcH tw th :=
    le_max_right _ _
  have h2 : (0 : ℚ) < (srcH : ℚ) := by exact_mod_cast hH
  calc (th : ℚ) = (srcH : ℚ) * ((th : ℚ) / (srcH : ℚ)) := by field_simp
    _ ≤ (srcH : ℚ) * cover_scale srcW srcH tw th :=
        mul_le_mul_of_nonneg_left h1 (le_of_lt h2)

theorem cover_new_height_ge (srcW srcH tw th : ℕ) (hH : 0 < srcH) :
    (th : ℤ) ≤ (cover_new_size srcW srcH tw th).2 := by
  have h := cover_scale_mul_h_ge srcW srcH tw th hH
  have hnn : (0 : ℚ) ≤ (srcH : ℚ) * cover_scale srcW srcH tw th :=
    le_trans (by positivity) h
  show (th : ℤ) ≤ pyInt ((srcH : ℚ) * cover_scale srcW srcH tw th)
  rw [pyInt_of_nonneg hnn, Int.le_floor]
  exact_mod_cast h

theorem int_div_two_eq_floor (n : ℤ) : n / 2 = ⌊(n : ℚ) / 2⌋ := by
  have h := Rat.floor_intCast_div_natCast n 2
  simpa using h.symm

/-- C3: the cover transform scales by max(targetW/srcW, targetH/srcH),
crops at left = floor((newW − targetW)/2) and
top = floor((newH − targetH)·facePosition), with crop box
(left, top, left+targetW, top+targetH); a 100×100 source with target
(50, 100) and facePosition 0 yields scale 1 and crop box
(25, 0, 75, 100). -/
theorem C3_cover_transform (srcW srcH tw th : ℕ) (fp : ℚ)
    (hH : 0 < srcH) (hfp : 0 ≤ fp) :
    cover_scale srcW srcH tw th
      = max ((tw : ℚ) / (srcW : ℚ)) ((th : ℚ) / (srcH : ℚ)) ∧
    (cover_crop_box srcW srcH tw th fp).1
      = ⌊(((cover_new_size srcW srcH tw th).1 : ℚ) - (tw : ℚ)) / 2⌋ ∧
    (cover_crop_box srcW srcH tw th fp).2.1
      = ⌊(((cover_new_size srcW srcH tw th).2 : ℚ) - (th : ℚ)) * fp⌋ ∧
    (cover_crop_box srcW srcH tw th fp).2.2.1
      = (cover_crop_box srcW srcH tw th fp).1 + (tw : ℤ) ∧
    (cover_crop_box srcW srcH tw th fp).2.2.2
      = (cover_crop_box srcW srcH tw th fp).2.1 + (th : ℤ) ∧
    cover_scale 100 100 50 100 = 1 ∧
    cover_crop_box 100 100 50 100 0 = (25, 0, 75, 100) := by
  refine ⟨rfl, ?_, ?_, rfl, rfl, ?_, ?_⟩
  · show ((cover_new_size srcW srcH tw th).1 - (tw : ℤ)) / 2 = _
    rw [int_div_two_eq_floor]
    push_cast
    ring_nf
  · show pyInt ((((cover_new_size srcW srcH tw th).2 - (th : ℤ)) : ℚ) * fp) = _
    have hge := cover_new_height_ge srcW srcH tw th hH
    have hnn : (0 : ℚ) ≤ (((cover_new_size srcW srcH tw th).2 - (th : ℤ)) : ℚ) * fp := by
      have h1 : (0 : ℚ) ≤ (((cover_new_size srcW srcH tw th).2 - (th : ℤ)) : ℚ) := by
        have : (0 : ℤ) ≤ (cover_new_size srcW srcH tw th).2 - (th : ℤ) := by omega
        exact_mod_cast this
      exact mul_nonneg h1 hfp
    rw [pyInt_of_nonneg hnn]
    push_cast
    ring_nf
  · norm_num [cover_scale]
  · norm_num [cover_crop_box, cover_new_size, cover_scale, pyInt, Prod.ext_iff]

theorem C3_cover_transform_witness :
    cover_scale 100 100 50 100 = 1 ∧
    cover_crop_box 100 100 50 100 0 = (25, 0, 75, 100) :=
  ⟨(C3_cover_transform 100 100 50 100 0 (by norm_num) (by norm_num)).2.2.2.2.2.1,
   (C3_cover_transform 100 100 50 100 0 (by norm_num) (by norm_num)).2.2.2.2.2.2⟩

/-! ## Rotation-size claim -/

theorem cover_cropped_size (srcW srcH tw th : ℕ) (fp : ℚ) :
    crop_size (cover_crop_box srcW srcH tw th fp).1
      (cover_crop_box srcW srcH tw th fp).2.1
      (cover_crop_box srcW srcH tw th fp).2.2.1
      (cover_crop_box srcW srcH tw th fp).2.2.2 = (tw, th) := by
  have h3 : (cover_crop_box srcW srcH tw th fp).2.2.1
      = (cover_crop_box srcW srcH tw th fp).1 + (tw : ℤ) := rfl
  have h4 : (cover_crop_box srcW srcH tw th fp).2.2.2
      = (cover_crop_box srcW srcH tw th fp).2.1 + (th : ℤ) := rfl
  unfold crop_size
  rw [h3, h4, Prod.mk.injEq]
  constructor <;> omega

theorem rotate_expand_min_le (w h : ℕ) (c s : ℚ) (hcs : 1 ≤ |c| + |s|) :
    min w h ≤ (rotate_expand_size w h c s).1 ∧
    min w h ≤ (rotate_expand_size w h c s).2 := by
  have hc : (0 : ℚ) ≤ |c| := abs_nonneg c
  have hs : (0 : ℚ) ≤ |s| := abs_nonneg s
  have hm1 : ((min w h : ℕ) : ℚ) ≤ (w : ℚ) := by exact_mod_cast min_le_left w h
  have hm2 : ((min w h : ℕ) : ℚ) ≤ (h : ℚ) := by exact_mod_cast min_le_right w h
  have hmn : (0 : ℚ) ≤ ((min w h : ℕ) : ℚ) := by positivity
  have key : ∀ a b : ℚ, 0 ≤ a → 0 ≤ b → 1 ≤ a + b →
      ((min w h : ℕ) : ℚ) ≤ (w : ℚ) * a + (h : ℚ) * b := by
    intro a b ha hb hab
    nlinarith [mul_le_mul_of_nonneg_right hm1 ha,
      mul_le_mul_of_nonneg_right hm2 hb,
      mul_le_mul_of_nonneg_left hab hmn]
  constructor
  · have k := key |c| |s| hc hs hcs
    have hceil : ((min w h : ℕ) : ℤ) ≤ ⌈(w : ℚ) * |c| + (h : ℚ) * |s|⌉ := by
      have := le_trans k (Int.le_ceil ((w : ℚ) * |c| + (h : ℚ) * |s|))
      exact_mod_cast this
    show min w h ≤ (⌈(w : ℚ) * |c| + (h : ℚ) * |s|⌉).toNat
    omega
  · have k := key |s| |c| hs hc (by linarith)
    have hceil : ((min w h : ℕ) : ℤ) ≤ ⌈(w : ℚ) * |s| + (h : ℚ) * |c|⌉ := by
      have := le_trans k (Int.le_ceil ((w : ℚ) * |s| + (h : ℚ) * |c|))
      exact_mod_cast this
    show min w h ≤ (⌈(w : ℚ) * |s| + (h : ℚ) * |c|⌉).toNat
    omega

/-- C7 counterexample: with a 100×100 source, target (100, 1),
facePosition 0 and a 90-degree rotation (cosine 0, sine 1), the subject
raster handed to the compositor is 1×100 (PIL's exact transpose fast
path), so its width is below targetW though the rotation is nonzero. -/
theorem C7_counterexample :
    prepared_subject_size 100 100 100 1 0 90 0 1 = (1, 100) ∧
    ¬ (100 ≤ (prepared_subject_size 100 100 100 1 0 90 0 1).1 ∧
       1 ≤ (prepared_subject_size 100 100 100 1 0 90 0 1).2) := by
  have h : prepared_subject_size 100 100 100 1 0 90 0 1 = (1, 100) := by
    norm_num [prepared_subject_size, rotate_expand_size, crop_size,
      cover_crop_box, cover_new_size, cover_scale, pyInt, Prod.ext_iff]
    omega
  refine ⟨h, ?_⟩
  rw [h]
  norm_num

/-- C7 (amended): the cover crop yields exactly (targetW, targetH) and a
zero rotation hands it over unchanged; a nonzero rotation replaces it by
the rotated content's bounding box, which is never re-cropped back to
(targetW, targetH): each of its dimensions is at least
min(targetW, targetH), but it can be smaller than the matching target
dimension (a 90-degree rotation swaps the two). Here c and s are the
cosine and sine of the rotation angle, which always satisfy
1 ≤ |c| + |s|. -/
theorem C7_rotation_size (srcW srcH tw th : ℕ) (fp rotation c s : ℚ)
    (hcs : 1 ≤ |c| + |s|) :
    (rotation = 0 →
      prepared_subject_size srcW srcH tw th fp rotation c s = (tw, th)) ∧
    (rotation ≠ 0 →
      prepared_subject_size srcW srcH tw th fp rotation c s
        = rotate_expand_size tw th c s ∧
      min tw th ≤ (prepared_subject_size srcW srcH tw th fp rotation c s).1 ∧
      min tw th ≤ (prepared_subject_size srcW srcH tw th fp rotation c s).2) := by
  have hcrop := cover_cropped_size srcW srcH tw th fp
  constructor
  · intro h0
    simp only [prepared_subject_size]
    rw [hcrop]
    simp [h0]
  · intro hne
    have hmain : prepared_subject_size srcW srcH tw th fp rotation c s
        = rotate_expand_size tw th c s := by
      simp only [prepared_subject_size]
      rw [hcrop]
      simp [hne]
    refine ⟨hmain, ?_, ?_⟩
    · rw [hmain]
      exact (rotate_expand_min_le tw th c s hcs).1
    · rw [hmain]
      exact (rotate_expand_min_le tw th c s hcs).2

theorem C7_rotation_size_witness :
    prepared_subject_size 100 100 100 50 0 3 (3/5) (4/5)
      = rotate_expand_size 100 50 (3/5) (4/5) ∧
    min 100 50 ≤ (prepared_subject_size 100 100 100 50 0 3 (3/5) (4/5)).1 ∧
    min 100 50 ≤ (prepared_subject_size 100 100 100 50 0 3 (3/5) (4/5)).2 :=
  (C7_rotation_size 100 100 100 50 0 3 (3/5) (4/5)
      (by rw [abs_of_nonneg (by norm_num : (0:ℚ) ≤ 3/5),
        abs_of_nonneg (by norm_num : (0:ℚ) ≤ 4/5)]; norm_num)).2
    (by norm_num)

/-! ## Supersampling claim -/

/-- C4 counterexample: fracSizeConfig has a fractional size component
(character width 449.5 = 899/2) and only integral offsets; the claim
demands internal render scale 2 for any fractional size, but the code's
supersample test inspects offsets only and keeps internal scale 1. -/
theorem C4_counterexample :
    fracSizeConfig.character_size.1.den ≠ 1 ∧
    AvatarConfig.has_subpixel fracSizeConfig = false ∧
    (AvatarConfig.scaled fracSizeConfig).internal_scale = 1 ∧
    (AvatarConfig.scaled fracSizeConfig).internal_scale ≠ 2 := by
  have hsub : AvatarConfig.has_subpixel fracSizeConfig = false := by
    norm_num [AvatarConfig.has_subpixel, fracSizeConfig, Rat.den]
  have hint : (AvatarConfig.scaled fracSizeConfig).internal_scale = 1 := by
    have h : (AvatarConfig.scaled fracSizeConfig).internal_scale
        = (if AvatarConfig.has_subpixel fracSizeConfig then (2 : ℚ) else 1) := rfl
    rw [h, hsub]
    norm_num
  refine ⟨?_, hsub, hint, by rw [hint]; norm_num⟩
  show ((899 : ℚ) / 2).den ≠ 1
  norm_num [Rat.den]

/-- C4 (amended): the supersample decision inspects only the six offset
components. With unit output scale and integer-valued output size: a
fractional offset makes the pipeline render at internal scale 2, and the
final raster, downsampled by the inverse factor, has exactly the nominal
output size; with no fractional offset the internal scale is 1 and the
final raster is the nominal size with no downsampling. Fractional sizes
alone never trigger supersampling. -/
theorem C4_supersample (c : AvatarConfig) (hs : c.output_scale = 1)
    (h1 : c.output_size.1.den = 1) (h2 : c.output_size.2.den = 1) :
    (c.has_subpixel = true → (c.scaled).internal_scale = 2) ∧
    (c.has_subpixel = false → (c.scaled).internal_scale = 1) ∧
    ((final_canvas_size c).1 : ℚ) = c.output_size.1 ∧
    ((final_canvas_size c).2 : ℚ) = c.output_size.2 := by
  have W1 : (c.output_size.1.num : ℚ) = c.output_size.1 :=
    (Rat.den_eq_one_iff _).mp h1
  have W2 : (c.output_size.2.num : ℚ) = c.output_size.2 :=
    (Rat.den_eq_one_iff _).mp h2
  have hint : (c.scaled).internal_scale
      = (if c.has_subpixel then (2 : ℚ) else 1) := rfl
  have hout1 : (c.scaled).output_size.1
      = ((pyInt (c.output_size.1
          * (c.output_scale * (if c.has_subpixel then (2 : ℚ) else 1)))) : ℚ) := rfl
  have hout2 : (c.scaled).output_size.2
      = ((pyInt (c.output_size.2
          * (c.output_scale * (if c.has_subpixel then (2 : ℚ) else 1)))) : ℚ) := rfl
  by_cases hb : c.has_subpixel = true
  · have hi2 : (c.scaled).internal_scale = 2 := by
      rw [hint, if_pos hb]
    have k1 : c.output_size.1
        * (c.output_scale * (if c.has_subpixel then (2 : ℚ) else 1))
        = ((2 * c.output_size.1.num : ℤ) : ℚ) := by
      rw [if_pos hb, hs]
      push_cast
      rw [W1]
      ring
    have k2 : c.output_size.2
        * (c.output_scale * (if c.has_subpixel then (2 : ℚ) else 1))
        = ((2 * c.output_size.2.num : ℤ) : ℚ) := by
      rw [if_pos hb, hs]
      push_cast
      rw [W2]
      ring
    have e1 : (c.scaled).output_size.1 = ((2 * c.output_size.1.num : ℤ) : ℚ) := by
      rw [hout1, k1, pyInt_intCast]
    have e2 : (c.scaled).output_size.2 = ((2 * c.output_size.2.num : ℤ) : ℚ) := by
      rw [hout2, k2, pyInt_intCast]
    have hdiv1 : ((2 * c.output_size.1.num : ℤ) : ℚ) / 2
        = ((c.output_size.1.num : ℤ) : ℚ) := by
      push_cast
      ring
    have hdiv2 : ((2 * c.output_size.2.num : ℤ) : ℚ) / 2
        = ((c.output_size.2.num : ℤ) : ℚ) := by
      push_cast
      ring
    refine ⟨fun _ => hi2, fun hf => by rw [hf] at hb; exact absurd hb Bool.false_ne_true, ?_, ?_⟩
    · simp only [final_canvas_size]
      rw [hi2, if_pos (by norm_num : (1 : ℚ) < 2), e1, hdiv1, pyInt_intCast]
      exact_mod_cast W1
    · simp only [final_canvas_size]
      rw [hi2, if_pos (by norm_num : (1 : ℚ) < 2), e2, hdiv2, pyInt_intCast]
      exact_mod_cast W2
  · have hi1 : (c.scaled).internal_scale = 1 := by
      rw [hint, if_neg hb]
    have k1 : c.output_size.1
        * (c.output_scale * (if c.has_subpixel then (2 : ℚ) else 1))
        = ((c.output_size.1.num : ℤ) : ℚ) := by
      rw [if_neg hb, hs]
      rw [W1]
      ring
    have k2 : c.output_size.2
        * (c.output_scale * (if c.has_subpixel then (2 : ℚ) else 1))
        = ((c.output_size.2.num : ℤ) : ℚ) := by
      rw [if_neg hb, hs]
      rw [W2]
      ring
    have e1 : (c.scaled).output_size.1 = ((c.output_size.1.num : ℤ) : ℚ) := by
      rw [hout1, k1, pyInt_intCast]
    have e2 : (c.scaled).output_size.2 = ((c.output_size.2.num : ℤ) : ℚ) := by
      rw [hout2, k2, pyInt_intCast]
    refine ⟨fun ht => absurd ht hb, fun _ => hi1, ?_, ?_⟩
    · simp only [final_canvas_size]
      rw [hi1, if_neg (by norm_num : ¬ (1 : ℚ) < 1), e1, pyInt_intCast]
      exact_mod_cast W1
    · simp only [final_canvas_size]
      rw [hi1, if_neg (by norm_num : ¬ (1 : ℚ) < 1), e2, pyInt_intCast]
      exact_mod_cast W2

theorem C4_supersample_witness :
    (defaultConfig.scaled).internal_scale = 2 ∧
    ((final_canvas_size defaultConfig).1 : ℚ) = defaultConfig.output_size.1 ∧
    ((final_canvas_size defaultConfig).2 : ℚ) = defaultConfig.output_size.2 := by
  have h := C4_supersample defaultConfig rfl
    (by norm_num [defaultConfig, Rat.den]) (by norm_num [defaultConfig, Rat.den])
  exact ⟨h.1 (by norm_num [AvatarConfig.has_subpixel, defaultConfig, Rat.den]),
    h.2.2.1, h.2.2.2⟩

/-! ## Hex parsing claim -/

theorem hash_hex_toNat (c : Char) (h : (c == '#' || isHexDigitCh c) = true) :
    c.toNat = 35 ∨ (48 ≤ c.toNat ∧ c.toNat ≤ 57) ∨ (97 ≤ c.toNat ∧ c.toNat ≤ 102)
      ∨ (65 ≤ c.toNat ∧ c.toNat ≤ 70) := by
  simp only [Bool.or_eq_true, beq_iff_eq] at h
  rcases h with h | h
  · subst h
    left
    decide
  · unfold isHexDigitCh at h
    simp only [Bool.or_eq_true, Bool.and_eq_true, decide_eq_true_eq] at h
    tauto

theorem dropWhile_eq_self_of_none (p : Char → Bool) (l : List Char)
    (h : ∀ c ∈ l, p c = false) : l.dropWhile p = l := by
  rcases l with _ | ⟨c, rest⟩
  · rfl
  · simp [List.dropWhile, h c (by simp)]

theorem hexTail_no_underscore (l : List Char) :
    ∀ acc : ℕ, (∀ c ∈ l, c.toNat ≠ 95) →
      hexTail acc false l = (if l.all isHexDigitCh
        then some (l.foldl (fun a ch => a * 16 + hexVal ch) acc) else none) := by
  induction l with
  | nil =>
    intro acc _
    simp [hexTail]
  | cons c rest ih =>
    intro acc h
    have hc : c.toNat ≠ 95 := h c (by simp)
    have hrest : ∀ ch ∈ rest, ch.toNat ≠ 95 := fun ch hm => h ch (by simp [hm])
    simp only [hexTail]
    by_cases hhex : isHexDigitCh c = true
    · rw [if_pos hhex, ih _ hrest]
      simp [List.all_cons, hhex]
    · rw [if_neg hhex,
        if_neg (by simp only [Bool.and_eq_true, decide_eq_true_eq]; intro hb; exact hc hb.1)]
      simp only [Bool.not_eq_true] at hhex
      simp [List.all_cons, hhex]

theorem parseHexDigits_no_underscore (l : List Char)
    (hnu : ∀ c ∈ l, c.toNat ≠ 95) :
    parseHexDigits l = hexDigitsVal l := by
  rcases l with _ | ⟨c, rest⟩
  · simp [parseHexDigits, hexDigitsVal]
  · simp only [parseHexDigits]
    by_cases hhex : isHexDigitCh c = true
    · rw [if_pos hhex,
        hexTail_no_underscore rest (hexVal c) (fun ch hm => hnu ch (by simp [hm]))]
      unfold hexDigitsVal
      rw [if_neg (by simp : ¬(c :: rest = []))]
      simp [List.all_cons, hhex]
    · rw [if_neg hhex]
      simp only [Bool.not_eq_true] at hhex
      unfold hexDigitsVal
      rw [if_neg (by simp : ¬(c :: rest = []))]
      simp [List.all_cons, hhex]

theorem parseHexBody_no_x (l : List Char)
    (hx : ∀ c ∈ l, c.toNat ≠ 120 ∧ c.toNat ≠ 88) :
    parseHexBody l = parseHexDigits l := by
  rcases l with _ | ⟨c0, _ | ⟨c1, rest⟩⟩
  · rfl
  · rfl
  · simp only [parseHexBody]
    rw [if_neg (by
      rintro ⟨h48, h | h⟩
      · exact (hx c1 (by simp)).1 h
      · exact (hx c1 (by simp)).2 h)]

/-- On a string of '#' and hex digits there is no whitespace to strip,
no sign, no 0x prefix and no underscore, so the full int(_, 16) model
reduces to the plain hex-digit core. -/
theorem pyIntBase16_on_hash_hex (l : List Char)
    (hdom : ∀ c ∈ l, (c == '#' || isHexDigitCh c) = true) :
    pyIntBase16 l = (hexDigitsVal l).map (fun v : ℕ => (v : ℤ)) := by
  have hsp : ∀ c ∈ l, isSpaceCh c = false := by
    intro c hm
    have hc := hash_hex_toNat c (hdom c hm)
    unfold isSpaceCh
    simp only [Bool.or_eq_false_iff, Bool.and_eq_false_iff, beq_eq_false_iff_ne,
      ne_eq, Bool.not_eq_true, decide_eq_false_iff_not, not_le]
    omega
  have hstrip : ((l.dropWhile isSpaceCh).reverse.dropWhile isSpaceCh).reverse = l := by
    rw [dropWhile_eq_self_of_none _ _ hsp,
      dropWhile_eq_self_of_none _ _ (fun c hm => hsp c (List.mem_reverse.mp hm)),
      List.reverse_reverse]
  unfold pyIntBase16
  rw [hstrip]
  rcases l with _ | ⟨c, rest⟩
  · rfl
  · have hcn := hash_hex_toNat c (hdom c (by simp))
    show (if c.toNat = 43 then (parseHexBody rest).map (fun v : ℕ => (v : ℤ))
      else if c.toNat = 45 then (parseHexBody rest).map (fun v : ℕ => -(v : ℤ))
      else (parseHexBody (c :: rest)).map (fun v : ℕ => (v : ℤ)))
      = (hexDigitsVal (c :: rest)).map (fun v : ℕ => (v : ℤ))
    rw [if_neg (by omega), if_neg (by omega)]
    have hxX : ∀ ch ∈ c :: rest, ch.toNat ≠ 120 ∧ ch.toNat ≠ 88 := by
      intro ch hm
      have := hash_hex_toNat ch (hdom ch hm)
      omega
    have hnu : ∀ ch ∈ c :: rest, ch.toNat ≠ 95 := by
      intro ch hm
      have := hash_hex_toNat ch (hdom ch hm)
      omega
    rw [parseHexBody_no_x _ hxX, parseHexDigits_no_underscore _ hnu]

theorem mem_pySlice (l : List Char) (i j : ℕ) : ∀ c ∈ pySlice l i j, c ∈ l := by
  intro c hm
  unfold pySlice at hm
  exact List.take_subset j l (List.drop_subset i (l.take j) hm)

theorem mem_dropWhile_hash (u : List Char) :
    ∀ c ∈ u.dropWhile (fun ch => ch == '#'), c ∈ u := by
  intro c hm
  exact (List.dropWhile_suffix (fun ch => ch == '#')).subset hm

theorem hexDigitsVal_eq_none_iff (l : List Char) :
    hexDigitsVal l = none ↔ (l = [] ∨ l.all isHexDigitCh = false) := by
  unfold hexDigitsVal
  split_ifs with h1 h2
  · simp [h1]
  · simp [h1, h2]
  · simp only [Bool.not_eq_true] at h2
    simp [h1, h2]

theorem hex_core_eq_none_iff (t : List Char) :
    hex_core t = none ↔ (pyIntBase16 (pySlice t 0 2) = none ∨
      pyIntBase16 (pySlice t 2 4) = none ∨
      pyIntBase16 (pySlice t 4 6) = none) := by
  unfold hex_core
  rcases h1 : pyIntBase16 (pySlice t 0 2) with _ | r <;>
    rcases h2 : pyIntBase16 (pySlice t 2 4) with _ | g <;>
      rcases h3 : pyIntBase16 (pySlice t 4 6) with _ | b <;>
        simp [h1, h2, h3]

theorem hex_core_characterization (t : List Char)
    (hdom : ∀ c ∈ t, (c == '#' || isHexDigitCh c) = true) :
    hex_core t = none ↔
      ¬ (5 ≤ t.length ∧ (t.take 6).all isHexDigitCh = true) := by
  have h02 := pyIntBase16_on_hash_hex (pySlice t 0 2)
    (fun c hm => hdom c (mem_pySlice t 0 2 c hm))
  have h24 := pyIntBase16_on_hash_hex (pySlice t 2 4)
    (fun c hm => hdom c (mem_pySlice t 2 4 c hm))
  have h46 := pyIntBase16_on_hash_hex (pySlice t 4 6)
    (fun c hm => hdom c (mem_pySlice t 4 6 c hm))
  rw [hex_core_eq_none_iff, h02, h24, h46]
  simp only [Option.map_eq_none']
  rw [hexDigitsVal_eq_none_iff, hexDigitsVal_eq_none_iff, hexDigitsVal_eq_none_iff]
  rcases t with _ | ⟨a, _ | ⟨b, _ | ⟨c, _ | ⟨d, _ | ⟨e, _ | ⟨f, rest⟩⟩⟩⟩⟩⟩
  · simp [pySlice]
  · simp [pySlice]
  · simp [pySlice]
  · simp [pySlice]
  · simp [pySlice]
  · have e1 : pySlice [a, b, c, d, e] 0 2 = [a, b] := rfl
    have e2 : pySlice [a, b, c, d, e] 2 4 = [c, d] := rfl
    have e3 : pySlice [a, b, c, d, e] 4 6 = [e] := rfl
    have e4 : ([a, b, c, d, e]).take 6 = [a, b, c, d, e] := rfl
    rw [e1, e2, e3, e4]
    have hlen : (5 : ℕ) ≤ ([a, b, c, d, e]).length := by simp
    simp only [hlen, true_and, List.all_cons, List.all_nil, Bool.and_true,
      Bool.and_eq_true, List.cons_ne_nil, false_or, Bool.eq_false_iff, ne_eq,
      not_and]
    tauto
  · have e1 : pySlice (a :: b :: c :: d :: e :: f :: rest) 0 2 = [a, b] := rfl
    have e2 : pySlice (a :: b :: c :: d :: e :: f :: rest) 2 4 = [c, d] := rfl
    have e3 : pySlice (a :: b :: c :: d :: e :: f :: rest) 4 6 = [e, f] := rfl
    have e4 : (a :: b :: c :: d :: e :: f :: rest).take 6 = [a, b, c, d, e, f] := rfl
    rw [e1, e2, e3, e4]
    have hlen : (5 : ℕ) ≤ (a :: b :: c :: d :: e :: f :: rest).length := by
      simp
    simp only [hlen, true_and, List.all_cons, List.all_nil, Bool.and_true,
      Bool.and_eq_true, List.cons_ne_nil, false_or, Bool.eq_false_iff, ne_eq,
      not_and]
    tauto

theorem hexVal_le_15 (c : Char) (h : isHexDigitCh c = true) : hexVal c ≤ 15 := by
  unfold isHexDigitCh at h
  simp only [Bool.or_eq_true, Bool.and_eq_true, decide_eq_true_eq] at h
  unfold hexVal
  split_ifs with h1 h2 <;>
    simp only [Bool.and_eq_true, decide_eq_true_eq, not_and, not_le] at h1 <;>
      omega

theorem hexDigitsVal_le_255 (l : List Char) (v : ℕ) (hlen : l.length ≤ 2)
    (h : hexDigitsVal l = some v) : v ≤ 255 := by
  unfold hexDigitsVal at h
  by_cases h1 : l = []
  · rw [if_pos h1] at h
    exact absurd h (by simp)
  · rw [if_neg h1] at h
    by_cases h2 : l.all isHexDigitCh = true
    · rw [if_pos h2] at h
      rcases l with _ | ⟨a, _ | ⟨b, _ | ⟨x, rest⟩⟩⟩
      · exact absurd rfl h1
      · simp only [List.all_cons, List.all_nil, Bool.and_true] at h2
        have ha := hexVal_le_15 a h2
        simp only [List.foldl, Option.some.injEq] at h
        omega
      · simp only [List.all_cons, List.all_nil, Bool.and_eq_true, Bool.and_true] at h2
        have ha := hexVal_le_15 a h2.1
        have hb := hexVal_le_15 b h2.2
        simp only [List.foldl, Option.some.injEq] at h
        omega
      · simp at hlen
    · rw [if_neg h2] at h
      exact absurd h (by simp)

theorem pySlice_two_length (l : List Char) (i : ℕ) :
    (pySlice l i (i + 2)).length ≤ 2 := by
  simp only [pySlice, List.length_drop, List.length_take]
  omega

theorem all_hex_dropWhile_hash (l : List Char)
    (h : l.all isHexDigitCh = true) :
    l.dropWhile (fun ch => ch == '#') = l := by
  rcases l with _ | ⟨a, tl⟩
  · rfl
  · simp only [List.all_cons, Bool.and_eq_true] at h
    have hne : (a == '#') = false := by
      by_contra hcon
      simp only [Bool.not_eq_false, beq_iff_eq] at hcon
      rw [hcon] at h
      have hbad : isHexDigitCh '#' = false := by decide
      rw [hbad] at h
      exact Bool.false_ne_true h.1
    simp [List.dropWhile, hne]

/-- C8 counterexample: "CE782" is not six hex digits, yet hex_to_rgb
parses it (the [4:6] slice is the single digit "2"), returning
(206, 120, 2); "##CE782D" is not one optional '#' followed by six hex
digits, yet lstrip removes both hashes and the parse succeeds. -/
theorem C8_counterexample :
    specSixHexAfterOptionalHash ['C', 'E', '7', '8', '2'] = false ∧
    hex_to_rgb ['C', 'E', '7', '8', '2'] = some (206, 120, 2) ∧
    specSixHexAfterOptionalHash ['#', '#', 'C', 'E', '7', '8', '2', 'D'] = false ∧
    hex_to_rgb ['#', '#', 'C', 'E', '7', '8', '2', 'D'] = some (206, 120, 45) := by
  decide

/-- C8 (amended): hex_to_rgb strips every leading '#'; on inputs made of
'#' and hex digits it fails exactly when the remainder is shorter than 5
characters or one of its first min(6, length) characters is not a hex
digit (a 5-character remainder parses with a one-digit blue slice, and
characters beyond the sixth are ignored), every channel of a successful
parse then lies in [0, 255], and one optional '#' followed by exactly 6
hex digits always succeeds. Beyond that shape Python's int(_, 16) also
tolerates a per-slice sign and surrounding whitespace, so "+1+1+1"
parses to (1, 1, 1), " 1 2 3" to (1, 2, 3), and "-1-1-1" to
(-1, -1, -1) with negative channels. -/
theorem C8_hex_parse (u : List Char)
    (hdom : u.all (fun ch => ch == '#' || isHexDigitCh ch) = true) :
    (hex_to_rgb u = none ↔
      ¬ (5 ≤ (u.dropWhile (fun ch => ch == '#')).length ∧
         ((u.dropWhile (fun ch => ch == '#')).take 6).all isHexDigitCh = true)) ∧
    (∀ r g b : ℤ, hex_to_rgb u = some (r, g, b) →
      0 ≤ r ∧ r ≤ 255 ∧ 0 ≤ g ∧ g ≤ 255 ∧ 0 ≤ b ∧ b ≤ 255) ∧
    (specSixHexAfterOptionalHash u = true → hex_to_rgb u ≠ none) ∧
    hex_to_rgb ['+', '1', '+', '1', '+', '1'] = some (1, 1, 1) ∧
    hex_to_rgb [' ', '1', ' ', '2', ' ', '3'] = some (1, 2, 3) ∧
    hex_to_rgb ['-', '1', '-', '1', '-', '1'] = some (-1, -1, -1) := by
  have hdomAll : ∀ c ∈ u, (c == '#' || isHexDigitCh c) = true :=
    fun c hm => List.all_eq_true.mp hdom c hm
  have hdomT : ∀ c ∈ u.dropWhile (fun ch => ch == '#'),
      (c == '#' || isHexDigitCh c) = true :=
    fun c hm => hdomAll c (mem_dropWhile_hash u c hm)
  refine ⟨?_, ?_, ?_, by decide, by decide, by decide⟩
  · unfold hex_to_rgb
    exact hex_core_characterization _ hdomT
  · intro r g b hsome
    unfold hex_to_rgb hex_core at hsome
    have b02 := pyIntBase16_on_hash_hex
      (pySlice (u.dropWhile (fun ch => ch == '#')) 0 2)
      (fun c hm => hdomT c (mem_pySlice _ 0 2 c hm))
    have b24 := pyIntBase16_on_hash_hex
      (pySlice (u.dropWhile (fun ch => ch == '#')) 2 4)
      (fun c hm => hdomT c (mem_pySlice _ 2 4 c hm))
    have b46 := pyIntBase16_on_hash_hex
      (pySlice (u.dropWhile (fun ch => ch == '#')) 4 6)
      (fun c hm => hdomT c (mem_pySlice _ 4 6 c hm))
    rw [b02, b24, b46] at hsome
    rcases h1 : hexDigitsVal (pySlice (u.dropWhile (fun ch => ch == '#')) 0 2)
        with _ | r0
    · rw [h1] at hsome
      simp at hsome
    rcases h2 : hexDigitsVal (pySlice (u.dropWhile (fun ch => ch == '#')) 2 4)
        with _ | g0
    · rw [h2] at hsome
      simp at hsome
    rcases h3 : hexDigitsVal (pySlice (u.dropWhile (fun ch => ch == '#')) 4 6)
        with _ | b0
    · rw [h3] at hsome
      simp at hsome
    rw [h1, h2, h3] at hsome
    simp only [Option.map_some', Option.some.injEq, Prod.mk.injEq] at hsome
    obtain ⟨hr, hg, hb⟩ := hsome
    have k1 := hexDigitsVal_le_255 _ _ (pySlice_two_length _ 0) h1
    have k2 := hexDigitsVal_le_255 _ _ (pySlice_two_length _ 2) h2
    have k3 := hexDigitsVal_le_255 _ _ (pySlice_two_length _ 4) h3
    subst hr
    subst hg
    subst hb
    omega
  · intro hvalid hnone
    unfold hex_to_rgb at hnone
    rw [hex_core_characterization _ hdomT] at hnone
    apply hnone
    have hcore : ∀ w : List Char, w.length = 6 → w.all isHexDigitCh = true →
        5 ≤ (w.dropWhile (fun ch => ch == '#')).length ∧
        ((w.dropWhile (fun ch => ch == '#')).take 6).all isHexDigitCh = true := by
      intro w hw6 hwhex
      rw [all_hex_dropWhile_hash w hwhex]
      refine ⟨by omega, ?_⟩
      have hw : w.take 6 = w := List.take_of_length_le (by omega)
      rw [hw, hwhex]
    simp only [specSixHexAfterOptionalHash] at hvalid
    by_cases hh : u.head? = some '#'
    · rw [if_pos hh] at hvalid
      simp only [Bool.and_eq_true, decide_eq_true_eq] at hvalid
      rcases u with _ | ⟨a, tl⟩
      · simp at hh
      · have ha : a = '#' := by simpa using hh
        subst ha
        have h6 := hcore tl hvalid.1 hvalid.2
        simpa [List.dropWhile] using h6
    · rw [if_neg hh] at hvalid
      simp only [Bool.and_eq_true, decide_eq_true_eq] at hvalid
      exact hcore u hvalid.1 hvalid.2

theorem C5_alpha_combination_witness :
    (multiplyL (newL (1, 1) 0) (newL (1, 1) 7)).px 0 0 = 0 :=
  (C5_alpha_combination (newL (1, 1) 0) (newL (1, 1) 7) 1 1 (0, 0) (0, 0)
    (newRGBA (1, 1) (1, 2, 3, 4)) (newL (1, 1) 5) 0 0
    (by norm_num) (by norm_num) (by norm_num) (by norm_num)).2.2.1 (Or.inl rfl)

theorem C8_hex_parse_witness :
    hex_to_rgb ['C', 'E', '7', '8', '2', 'D'] ≠ none :=
  (C8_hex_parse ['C', 'E', '7', '8', '2', 'D'] (by decide)).2.2.1 (by decide)

end AvatarProofs
